import Mathlib

/-
  Verification of the post-stuffer blockchain post indexer.

  Shallow embedding of the Go sources:
    - blockchain.go : Block / Transaction / Operation / OperationValue data model
    - config.go     : configuration record (genesis block, batch size, retries)
    - database.go   : initDB schema, getLastProcessedBlock
    - utils.go      : retryWithBackoff, constructAuthorPerm
    - the block processor file : NewBlockProcessor (prepared insert), processBlock
    - main.go       : bootstrap, batch loop, progress percentage

  Pure Go functions become Lean functions; the SQLite posts table becomes an
  explicit list of rows threaded through the functions; Go's (value, error)
  returns become explicit sums; a Go runtime panic (out-of-range string
  slicing) is a distinguished RunOutcome.crashed result.  Go's encoding/json
  behaviour used by processBlock (Unmarshal into a struct with a single
  interface-typed Tags field, Marshal of decoded values) is modelled by a small
  executable JSON datatype with a parser and serializer; JSON numbers are
  modelled as integers, which covers every metadata shape considered here.
-/

namespace PostStuffer

/-- Value carried by an operation (blockchain.go, OperationValue). -/
structure OperationValue where
  author : String
  title : String
  permlink : String
  parentAuthor : String
  jsonMetadata : String
deriving Repr, DecidableEq

/-- An operation within a transaction (blockchain.go, Operation). -/
structure Operation where
  type : String
  value : OperationValue
deriving Repr, DecidableEq

/-- A transaction within a block (blockchain.go, Transaction). -/
structure Transaction where
  operations : List Operation
deriving Repr, DecidableEq

/-- A blockchain block (blockchain.go, Block): `blockNum` is the block_id
string whose first 8 hex characters encode the height. -/
structure Block where
  blockNum : String
  timestamp : String
  transactions : List Transaction
deriving Repr, DecidableEq

/-- A row of the posts table, as the prepared insert statement populates it
(url, author, permlink, title, tags JSON text, block number, timestamp). -/
structure Post where
  url : String
  author : String
  permlink : String
  title : String
  tags : String
  blockNum : Int
  timestamp : String
deriving Repr, DecidableEq

/-- Outcome of running a piece of Go code that can panic: `crashed` models an
uncaught runtime panic aborting the program, `ok` a normal return. -/
inductive RunOutcome (α : Type) where
  | crashed (msg : String) : RunOutcome α
  | ok (val : α) : RunOutcome α
deriving Repr, DecidableEq

/-- Embeds utils.go constructAuthorPerm: the unique "@author/permlink" key. -/
def constructAuthorPerm (author permlink : String) : String :=
  "@" ++ author ++ "/" ++ permlink

/-- Embeds the retry error message built by utils.go retryWithBackoff via
fmt.Errorf("operation failed after %d attempts. Last error: %v", ...); a nil
last error prints as "<nil>" (only reachable with maxRetries = 0). -/
def mkRetryExhaustedMsg (maxRetries : Nat) (lastErr : Option String) : String :=
  "operation failed after " ++ toString maxRetries ++ " attempts. Last error: " ++
    (match lastErr with
     | some e => e
     | none => "<nil>")

/-- Loop body of utils.go retryWithBackoff.  The Go loop runs `i` from 0 while
`i < maxRetries`; `remaining = maxRetries - i` makes the recursion structural.
The operation is a function of the attempt index (`none` = success, `some e` =
failure with error e).  The result records the Go return value (`none` =
success, `some msg` = the final wrapped error), the number of invocations of
the operation, and the list of sleep delays requested, in order; the Go code
computes each delay as retryDelay * (1 << i) and sleeps inside the loop body,
including after the final failed attempt. -/
def retryAux (op : Nat → Option String) (maxRetries retryDelay : Nat) :
    Nat → Nat → Option String → Option String × Nat × List Nat
  | _, 0, lastErr => (some (mkRetryExhaustedMsg maxRetries lastErr), 0, [])
  | i, r + 1, _ =>
    match op i with
    | some e =>
      let out := retryAux op maxRetries retryDelay (i + 1) r (some e)
      (out.1, out.2.1 + 1, retryDelay * 2 ^ i :: out.2.2)
    | none => (none, 1, [])

/-- Embeds utils.go retryWithBackoff, instrumented with the invocation count
and the requested sleep delays. -/
def retryWithBackoff (maxRetries retryDelay : Nat) (op : Nat → Option String) :
    Option String × Nat × List Nat :=
  retryAux op maxRetries retryDelay 0 maxRetries none

/-- Columns of the posts table created by database.go initDB. -/
def postsTableColumns : List String :=
  ["_id", "url", "author", "permlink", "title", "json_metadata", "block_num", "timestamp"]

/-- Columns targeted by the INSERT statement prepared by NewBlockProcessor. -/
def insertColumns : List String :=
  ["url", "author", "permlink", "title", "tags", "block_num", "timestamp"]

/-- SQLite compiles a prepared INSERT only if every named column exists in the
table; this models whether NewBlockProcessor's db.Prepare succeeds against the
schema created by initDB. -/
def prepareInsertOk : Bool :=
  insertColumns.all (fun c => postsTableColumns.contains c)

/-- Embeds database.go getLastProcessedBlock: SELECT MAX(block_num) yields
NULL (`none`) on an empty table, in which case the genesis block is returned;
otherwise the stored maximum is returned. -/
def getLastProcessedBlock (maxBlockNum : Option Int) (genesisBlock : Int) : Int :=
  match maxBlockNum with
  | none => genesisBlock
  | some v => v

/-- Embeds main.go's bootstrap: after reading getLastProcessedBlock, main
resets a zero lastProcessed to the configured genesis block. -/
def bootstrapLastProcessed (maxBlockNum : Option Int) (genesisBlock : Int) : Int :=
  let lastProcessed := getLastProcessedBlock maxBlockNum genesisBlock
  if lastProcessed = 0 then genesisBlock else lastProcessed

/-- The start height of the first batch fetch in main.go: lastProcessed + 1. -/
def firstStartBlock (maxBlockNum : Option Int) (genesisBlock : Int) : Int :=
  bootstrapLastProcessed maxBlockNum genesisBlock + 1

/-- Embeds main.go's per-iteration batch boundary computation:
startBlock := lastProcessed + 1; count := BatchSize, clipped to
currentBlock - startBlock + 1 when startBlock + count overshoots. -/
def batchParams (lastProcessed batchSize currentBlock : Int) : Int × Int :=
  let startBlock := lastProcessed + 1
  let count := if startBlock + batchSize > currentBlock then currentBlock - startBlock + 1 else batchSize
  (startBlock, count)

mutual

/-- JSON values as produced by Go's encoding/json when decoding into an
interface-typed location.  Arrays and objects are mutual inductives (rather
than nested List uses) so that every function over them is plain structural
recursion.  Numbers are modelled as integers: every metadata shape considered
here uses integer numerals, and numerals with fractional or exponent parts are
outside this model. -/
inductive Json where
  | null : Json
  | bool (b : Bool) : Json
  | num (n : Int) : Json
  | str (s : String) : Json
  | arr (elems : JsonList) : Json
  | obj (fields : JsonFields) : Json

/-- A JSON array's element list. -/
inductive JsonList where
  | nil : JsonList
  | cons (head : Json) (tail : JsonList) : JsonList

/-- A JSON object's field list, in source order, duplicates kept. -/
inductive JsonFields where
  | nil : JsonFields
  | cons (key : String) (val : Json) (tail : JsonFields) : JsonFields

end

/-- Value of a hexadecimal digit character, if it is one. -/
def hexDigitVal (c : Char) : Option Nat :=
  if '0' ≤ c ∧ c ≤ '9' then some (c.toNat - 48)
  else if 'a' ≤ c ∧ c ≤ 'f' then some (c.toNat - 97 + 10)
  else if 'A' ≤ c ∧ c ≤ 'F' then some (c.toNat - 65 + 10)
  else none

/-- Skip JSON insignificant whitespace. -/
def skipWs : List Char → List Char
  | [] => []
  | c :: cs =>
    if c = ' ' ∨ c = '\t' ∨ c = '\n' ∨ c = '\r' then skipWs cs else c :: cs

/-- Parse the remainder of a JSON string literal after its opening quote,
returning the decoded characters and the rest of the input.  Escapes follow
RFC 8259 as encoding/json accepts them; a lone \.uXXXX surrogate half decodes
to U+FFFD (surrogate pairs are not combined in this model); raw control
characters are rejected. -/
def parseStringRest : Nat → List Char → Option (List Char × List Char)
  | 0, _ => none
  | _, [] => none
  | fuel + 1, c :: cs =>
    if c = '"' then some ([], cs)
    else if c = '\\' then
      match cs with
      | [] => none
      | e :: cs' =>
        if e = 'u' then
          match cs' with
          | h1 :: h2 :: h3 :: h4 :: cs'' =>
            match hexDigitVal h1, hexDigitVal h2, hexDigitVal h3, hexDigitVal h4 with
            | some a, some b, some c2, some d =>
              let n := ((a * 16 + b) * 16 + c2) * 16 + d
              let ch := if 0xd800 ≤ n ∧ n ≤ 0xdfff then '�' else Char.ofNat n
              match parseStringRest fuel cs'' with
              | some (s, rest) => some (ch :: s, rest)
              | none => none
            | _, _, _, _ => none
          | _ => none
        else
          let esc : Option Char :=
            if e = '"' then some '"'
            else if e = '\\' then some '\\'
            else if e = '/' then some '/'
            else if e = 'b' then some (Char.ofNat 8)
            else if e = 'f' then some (Char.ofNat 12)
            else if e = 'n' then some '\n'
            else if e = 'r' then some '\r'
            else if e = 't' then some '\t'
            else none
          match esc with
          | some ch =>
            match parseStringRest fuel cs' with
            | some (s, rest) => some (ch :: s, rest)
            | none => none
          | none => none
    else if c.toNat < 32 then none
    else
      match parseStringRest fuel cs with
      | some (s, rest) => some (c :: s, rest)
      | none => none

/-- Take a maximal run of decimal digits. -/
def takeDigits : List Char → List Char × List Char
  | [] => ([], [])
  | c :: cs =>
    if c.isDigit then
      let r := takeDigits cs
      (c :: r.fst, r.snd)
    else ([], c :: cs)

/-- Decimal value of a digit run. -/
def decVal (ds : List Char) : Nat :=
  ds.foldl (fun a c => a * 10 + (c.toNat - 48)) 0

/-- Parse a JSON integer numeral (optional minus, no leading zeros).  A
numeral continuing with a fractional or exponent part is outside this model
and is treated as a parse failure. -/
def parseIntNumeral (cs : List Char) : Option (Json × List Char) :=
  let signed := match cs with
    | '-' :: r => (true, r)
    | _ => (false, cs)
  match takeDigits signed.snd with
  | ([], _) => none
  | (ds, rest) =>
    if 1 < ds.length ∧ ds.headI = '0' then none
    else
      match rest with
      | c :: _ =>
        if c = '.' ∨ c = 'e' ∨ c = 'E' then none
        else some (.num (if signed.fst then -(decVal ds : Int) else (decVal ds : Int)), rest)
      | [] => some (.num (if signed.fst then -(decVal ds : Int) else (decVal ds : Int)), [])

/-- Opening brace character, written by code point. -/
def lbrace : Char := Char.ofNat 123

/-- Closing brace character, written by code point. -/
def rbrace : Char := Char.ofNat 125

mutual

/-- Fuel-indexed recursive-descent JSON value reader over the remaining
characters; returns the value and the unconsumed input. -/
def parseValue : Nat → List Char → Option (Json × List Char)
  | 0, _ => none
  | fuel + 1, cs =>
    match skipWs cs with
    | [] => none
    | c :: rest =>
      if c = 'n' then
        match rest with
        | 'u' :: 'l' :: 'l' :: r => some (.null, r)
        | _ => none
      else if c = 't' then
        match rest with
        | 'r' :: 'u' :: 'e' :: r => some (.bool true, r)
        | _ => none
      else if c = 'f' then
        match rest with
        | 'a' :: 'l' :: 's' :: 'e' :: r => some (.bool false, r)
        | _ => none
      else if c = '"' then
        match parseStringRest (rest.length + 1) rest with
        | some (s, r) => some (.str (String.mk s), r)
        | none => none
      else if c = '[' then
        match skipWs rest with
        | ']' :: r => some (.arr .nil, r)
        | r => parseItems fuel r
      else if c = lbrace then
        match skipWs rest with
        | d :: r =>
          if d = rbrace then some (.obj .nil, r) else parseFields fuel (d :: r)
        | [] => none
      else if c = '-' ∨ c.isDigit then parseIntNumeral (c :: rest)
      else none

/-- Read one or more comma-separated array elements followed by ']'. -/
def parseItems : Nat → List Char → Option (Json × List Char)
  | 0, _ => none
  | fuel + 1, cs =>
    match parseValue fuel cs with
    | none => none
    | some (v, rest) =>
      match skipWs rest with
      | ',' :: r =>
        match parseItems fuel r with
        | some (.arr tail, r') => some (.arr (.cons v tail), r')
        | _ => none
      | ']' :: r => some (.arr (.cons v .nil), r)
      | _ => none

/-- Read one or more comma-separated object members followed by the closing
brace. -/
def parseFields : Nat → List Char → Option (Json × List Char)
  | 0, _ => none
  | fuel + 1, cs =>
    match skipWs cs with
    | '"' :: rest =>
      match parseStringRest (rest.length + 1) rest with
      | none => none
      | some (k, afterKey) =>
        match skipWs afterKey with
        | ':' :: afterColon =>
          match parseValue fuel afterColon with
          | none => none
          | some (v, rest') =>
            match skipWs rest' with
            | ',' :: r =>
              match parseFields fuel r with
              | some (.obj tail, r') => some (.obj (.cons (String.mk k) v tail), r')
              | _ => none
            | d :: r =>
              if d = rbrace then some (.obj (.cons (String.mk k) v .nil), r) else none
            | [] => none
        | _ => none
    | _ => none

end

/-- Embeds a full-input JSON parse as encoding/json performs it: the whole
input must be consumed up to trailing whitespace. -/
def goParseJson (s : String) : Option Json :=
  let cs := s.toList
  match parseValue (2 * cs.length + 2) cs with
  | some (v, rest) => if (skipWs rest).isEmpty then some v else none
  | none => none

/-- ASCII lowercasing of one character. -/
def lowerChar (c : Char) : Char :=
  if 65 ≤ c.toNat ∧ c.toNat ≤ 90 then Char.ofNat (c.toNat + 32) else c

/-- ASCII lowercasing of a string, for Go's case-insensitive JSON field name
match. -/
def asciiLower (s : String) : String :=
  String.mk (s.toList.map lowerChar)

/-- Last field bound to the tags key, matched case-insensitively as Go's
struct field resolution does; later duplicate keys overwrite earlier ones. -/
def lastTagsField : JsonFields → Option Json
  | .nil => none
  | .cons k v rest =>
    match lastTagsField rest with
    | some w => some w
    | none => if asciiLower k == "tags" then some v else none

/-- Embeds json.Unmarshal(data, &metadata) for
`var metadata struct { Tags interface{} }`: `none` is an unmarshal error
(input not a JSON object or null); `some none` leaves Tags nil (null input,
or tags absent or null); `some (some v)` binds Tags to v. -/
def goUnmarshalTagsStruct (s : String) : Option (Option Json) :=
  match goParseJson s with
  | none => none
  | some Json.null => some none
  | some (Json.obj fields) =>
    match lastTagsField fields with
    | some Json.null => some none
    | r => some r
  | some _ => none

/-- Lowercase hex digit character. -/
def hexLowerDigit (n : Nat) : Char :=
  if n < 10 then Char.ofNat (48 + n) else Char.ofNat (87 + n)

/-- Four lowercase hex digits, as in a \.uXXXX escape. -/
def u4hex (n : Nat) : String :=
  String.mk [hexLowerDigit (n / 4096 % 16), hexLowerDigit (n / 256 % 16),
             hexLowerDigit (n / 16 % 16), hexLowerDigit (n % 16)]

/-- Escaping of one character inside a json.Marshal string literal: quote,
backslash, and the HTML-sensitive characters are escaped, control characters
become \.u00XX, everything else is copied. -/
def jsonQuoteChar (c : Char) : String :=
  if c = '"' then "\\\""
  else if c = '\\' then "\\\\"
  else if c = '\n' then "\\n"
  else if c = '\r' then "\\r"
  else if c = '\t' then "\\t"
  else if c = '<' ∨ c = '>' ∨ c = '&' then "\\u" ++ u4hex c.toNat
  else if c.toNat < 32 then "\\u" ++ u4hex c.toNat
  else if c.toNat = 0x2028 ∨ c.toNat = 0x2029 then "\\u" ++ u4hex c.toNat
  else String.singleton c

/-- A json.Marshal string literal, quotes included. -/
def goJsonQuote (s : String) : String :=
  "\"" ++ String.join (s.toList.map jsonQuoteChar) ++ "\""

/-- Escaping of one character under Go's %q verb (strconv.Quote): Go escape
syntax for the usual control characters, \.x.. for other ASCII control bytes,
printable characters copied. -/
def goQuoteChar (c : Char) : String :=
  if c = '"' then "\\\""
  else if c = '\\' then "\\\\"
  else if c = Char.ofNat 7 then "\\a"
  else if c = Char.ofNat 8 then "\\b"
  else if c = Char.ofNat 12 then "\\f"
  else if c = '\n' then "\\n"
  else if c = '\r' then "\\r"
  else if c = '\t' then "\\t"
  else if c = Char.ofNat 11 then "\\v"
  else if c.toNat < 32 ∨ c.toNat = 127 then
    "\\x" ++ String.mk [hexLowerDigit (c.toNat / 16 % 16), hexLowerDigit (c.toNat % 16)]
  else String.singleton c

/-- Embeds fmt.Sprintf's %q of a string: a double-quoted Go string literal. -/
def goQuote (s : String) : String :=
  "\"" ++ String.join (s.toList.map goQuoteChar) ++ "\""

/-- Whether a field list binds a key. -/
def fieldsHasKey (k : String) : JsonFields → Bool
  | .nil => false
  | .cons k' _ rest => k' == k || fieldsHasKey k rest

/-- Drop all but the last binding of each key, as decoding a JSON object into
a Go map does. -/
def dedupFields : JsonFields → JsonFields
  | .nil => .nil
  | .cons k v rest =>
    if fieldsHasKey k rest then dedupFields rest else .cons k v (dedupFields rest)

/-- Insert a field into a key-sorted field list. -/
def insertField (k : String) (v : Json) : JsonFields → JsonFields
  | .nil => .cons k v .nil
  | .cons k' v' rest =>
    if k < k' then .cons k v (.cons k' v' rest) else .cons k' v' (insertField k v rest)

/-- Insertion sort of a field list by key. -/
def sortFieldsByKey : JsonFields → JsonFields
  | .nil => .nil
  | .cons k v rest => insertField k v (sortFieldsByKey rest)

/-- Go map semantics applied to a decoded object's fields: last duplicate
wins, then json.Marshal emits keys in sorted order. -/
def sortDedupFields (f : JsonFields) : JsonFields :=
  sortFieldsByKey (dedupFields f)

mutual

/-- Recursively apply Go map key collapsing and sorting to every object
inside a decoded value, preparing it for serialization. -/
def sortJsonObjs : Json → Json
  | .null => .null
  | .bool b => .bool b
  | .num n => .num n
  | .str s => .str s
  | .arr xs => .arr (sortJsonList xs)
  | .obj fields => .obj (sortDedupFields (sortJsonFields fields))

/-- List part of sortJsonObjs. -/
def sortJsonList : JsonList → JsonList
  | .nil => .nil
  | .cons x rest => .cons (sortJsonObjs x) (sortJsonList rest)

/-- Field part of sortJsonObjs (values rewritten; ordering is applied by
sortJsonObjs at the enclosing object). -/
def sortJsonFields : JsonFields → JsonFields
  | .nil => .nil
  | .cons k v rest => .cons k (sortJsonObjs v) (sortJsonFields rest)

end

mutual

/-- Serialize a value in json.Marshal's concrete syntax (no added
whitespace); objects are emitted in stored field order, so this is applied
after sortJsonObjs. -/
def serializeJson : Json → String
  | .null => "null"
  | .bool true => "true"
  | .bool false => "false"
  | .num n => toString n
  | .str s => goJsonQuote s
  | .arr xs => "[" ++ serializeList xs ++ "]"
  | .obj fields => String.singleton lbrace ++ serializeFields fields ++ String.singleton rbrace

/-- Comma-separated serialization of array elements. -/
def serializeList : JsonList → String
  | .nil => ""
  | .cons x .nil => serializeJson x
  | .cons x (.cons y rest) => serializeJson x ++ "," ++ serializeList (.cons y rest)

/-- Comma-separated serialization of object members. -/
def serializeFields : JsonFields → String
  | .nil => ""
  | .cons k v .nil => goJsonQuote k ++ ":" ++ serializeJson v
  | .cons k v (.cons k' v' rest) =>
    goJsonQuote k ++ ":" ++ serializeJson v ++ "," ++ serializeFields (.cons k' v' rest)

end

/-- Embeds json.Marshal applied to a value that was decoded from JSON into an
interface-typed location.  Such a marshal never fails in Go, so the model is
total; the code's fallback to "[]" on a marshal error is dead in practice. -/
def goMarshal (j : Json) : String :=
  serializeJson (sortJsonObjs j)

/-- Embeds the tag-normalization logic inlined in processBlock.  Empty
metadata yields "[]".  Otherwise the metadata is unmarshalled into the Tags
struct; on unmarshal failure the raw metadata string itself becomes the Tags
value.  The switch then renders a string tag as a one-element array via
fmt.Sprintf("[%q]", v), re-marshals an array value, and yields "[]" for every
other Tags shape (absent, null, number, boolean, object). -/
def normalizeTags (jsonMetadata : String) : String :=
  if jsonMetadata = "" then "[]"
  else
    match goUnmarshalTagsStruct jsonMetadata with
    | none => "[" ++ goQuote jsonMetadata ++ "]"
    | some (some (Json.str v)) => "[" ++ goQuote v ++ "]"
    | some (some (Json.arr xs)) => goMarshal (.arr xs)
    | some _ => "[]"

/-- Accumulate the hexadecimal value of a digit run; `none` on the first
non-hex character. -/
def hexValAux : List Char → Nat → Option Nat
  | [], acc => some acc
  | c :: cs, acc =>
    match hexDigitVal c with
    | some d => hexValAux cs (acc * 16 + d)
    | none => none

/-- Embeds strconv.ParseInt(s, 16, 32): an optional single sign, then one or
more hex digits (no 0x prefix is accepted at an explicit base), with the
result range-checked against a signed 32-bit integer; `none` models a non-nil
error. -/
def parseHexInt32 (s : String) : Option Int :=
  let cs := s.toList
  let signed := match cs with
    | '+' :: r => (false, r)
    | '-' :: r => (true, r)
    | _ => (false, cs)
  match signed.snd with
  | [] => none
  | ds =>
    match hexValAux ds 0 with
    | none => none
    | some v =>
      if signed.fst then
        if v ≤ 2 ^ 31 then some (-(v : Int)) else none
      else
        if v < 2 ^ 31 then some (v : Int) else none

/-- Embeds the INSERT ... ON CONFLICT(url) DO NOTHING semantics of the
prepared statement over the modelled posts table: an existing url leaves the
table unchanged and inserts nothing (no error); otherwise the row is
appended.  The Bool is whether a row was actually inserted. -/
def insertPost (posts : List Post) (p : Post) : List Post × Bool :=
  if posts.any (fun q => q.url == p.url) then (posts, false) else (posts ++ [p], true)

/-- The filter processBlock applies to an operation: kind must be exactly
"comment_operation" and the parent author must be empty (top-level post, not
a reply). -/
def qualifies (op : Operation) : Bool :=
  op.type == "comment_operation" && op.value.parentAuthor == ""

/-- Number of operations of a block passing the processBlock filter. -/
def qualCount (b : Block) : Nat :=
  (b.transactions.map (fun tx => tx.operations.countP qualifies)).sum

/-- Inner operation loop of processBlock: non-"comment_operation" kinds and
replies are skipped; every other operation has its metadata normalized and a
row inserted (the Go code wraps the insert in retryWithBackoff, but the
modelled insert cannot fail, so the retry returns after its first attempt and
processedCount is incremented unconditionally — also when ON CONFLICT left
the table unchanged). -/
def processOps (blockNum : Int) (timestamp : String) :
    List Operation → Nat × List Post → Nat × List Post
  | [], acc => acc
  | op :: rest, (count, posts) =>
    if op.type ≠ "comment_operation" then processOps blockNum timestamp rest (count, posts)
    else if op.value.parentAuthor ≠ "" then processOps blockNum timestamp rest (count, posts)
    else
      let tagsJson := normalizeTags op.value.jsonMetadata
      let row : Post :=
        { url := constructAuthorPerm op.value.author op.value.permlink
          author := op.value.author
          permlink := op.value.permlink
          title := op.value.title
          tags := tagsJson
          blockNum := blockNum
          timestamp := timestamp }
      processOps blockNum timestamp rest (count + 1, (insertPost posts row).fst)

/-- Transaction loop of processBlock. -/
def processTxs (blockNum : Int) (timestamp : String) :
    List Transaction → Nat × List Post → Nat × List Post
  | [], acc => acc
  | tx :: rest, acc =>
    processTxs blockNum timestamp rest (processOps blockNum timestamp tx.operations acc)

/-- Embeds processBlock.  block.BlockNum[:8] panics when the identifier is
shorter than 8 characters (modelled as crashed); a failed hex parse of the
first 8 characters returns count 0 with a non-nil error (modelled as the
`some` message, the wrapped strconv error text elided); otherwise the
transactions are scanned and the result is the processed count, a nil error,
and the updated posts table.  The real program never gets this far: the
prepared statement does not compile against the created schema (see
prepareInsertOk); this models the statement's SQL semantics as written. -/
def processBlock (posts : List Post) (block : Block) :
    RunOutcome (Nat × Option String × List Post) :=
  if block.blockNum.length < 8 then
    RunOutcome.crashed "runtime error: slice bounds out of range"
  else
    match parseHexInt32 (block.blockNum.take 8) with
    | none => RunOutcome.ok (0, some "error converting block number from hex", posts)
    | some blockNum =>
      let r := processTxs blockNum block.timestamp block.transactions (0, posts)
      RunOutcome.ok (r.fst, none, r.snd)

/-- Embeds the per-batch block loop of main.go.  State: posts table,
lastProcessed, totalProcessed, batchInserts.  A block whose identifier is
exactly "0" is skipped; a processBlock error is logged and skipped without
advancing lastProcessed; on success main re-parses the first 8 id characters
(ignoring the error, which processBlock's success has ruled out), advances
lastProcessed to that height, counts the block, and accumulates the insert
count.  An uncaught panic aborts the whole program. -/
def runBatch (posts : List Post) (lastProcessed : Int) (totalProcessed batchInserts : Nat) :
    List Block → RunOutcome (List Post × Int × Nat × Nat)
  | [] => RunOutcome.ok (posts, lastProcessed, totalProcessed, batchInserts)
  | block :: rest =>
    if block.blockNum = "0" then runBatch posts lastProcessed totalProcessed batchInserts rest
    else
      match processBlock posts block with
      | RunOutcome.crashed msg => RunOutcome.crashed msg
      | RunOutcome.ok (_, some _, posts') =>
        runBatch posts' lastProcessed totalProcessed batchInserts rest
      | RunOutcome.ok (insertCount, none, posts') =>
        let blockNum := (parseHexInt32 (block.blockNum.take 8)).getD 0
        runBatch posts' blockNum (totalProcessed + 1) (batchInserts + insertCount) rest

/-- Embeds the outer ingestion loop of main.go, instrumented to record the
(startBlock, count) arguments of every getBlockRange request.  The fetch is a
pure oracle (a successful network call); fuel bounds the number of
iterations observed.  The loop runs while variance = currentBlock -
lastProcessed is positive, computes the batch boundaries, fetches, processes
the batch, and recomputes variance from the updated lastProcessed; a panic
while processing ends the run after the recorded request. -/
def runLoop (fetch : Int → Int → List Block) (currentBlock batchSize : Int) :
    Nat → List Post → Int → List (Int × Int)
  | 0, _, _ => []
  | fuel + 1, posts, lastProcessed =>
    if currentBlock - lastProcessed > 0 then
      let p := batchParams lastProcessed batchSize currentBlock
      let blocks := fetch p.fst p.snd
      match runBatch posts lastProcessed 0 0 blocks with
      | RunOutcome.crashed _ => [p]
      | RunOutcome.ok (posts', lastProcessed', _, _) =>
        p :: runLoop fetch currentBlock batchSize fuel posts' lastProcessed'
    else []

/-- Embeds main.go's progress percentage
float64(lastProcessed-genesis) / float64(currentBlock-genesis) * 100.
The code has no branch guarding the denominator: when currentBlock equals the
genesis block the float64 division by zero produces a non-finite value
(Inf/NaN), modelled here as `none`; otherwise the exact rational value is
returned. -/
def percentComplete (lastProcessed currentBlock genesisBlock : Int) : Option ℚ :=
  if currentBlock - genesisBlock = 0 then none
  else some (((lastProcessed - genesisBlock : Int) : ℚ) / ((currentBlock - genesisBlock : Int) : ℚ) * 100)

/-- A block whose first 8 id characters parse at height h is processed
without error: the count and table are those of the transaction scan. -/
theorem processBlock_success (posts : List Post) (b : Block) (h : Int)
    (hlen : 8 ≤ b.blockNum.length)
    (hparse : parseHexInt32 (b.blockNum.take 8) = some h) :
    processBlock posts b =
      RunOutcome.ok ((processTxs h b.timestamp b.transactions (0, posts)).fst, none,
        (processTxs h b.timestamp b.transactions (0, posts)).snd) := by
  unfold processBlock
  rw [if_neg (by omega), hparse]

/-- A block whose first 8 id characters do not parse as hex yields an error
with count 0 and an unchanged table. -/
theorem processBlock_error (posts : List Post) (b : Block)
    (hlen : 8 ≤ b.blockNum.length)
    (hparse : parseHexInt32 (b.blockNum.take 8) = none) :
    processBlock posts b =
      RunOutcome.ok (0, some "error converting block number from hex", posts) := by
  unfold processBlock
  rw [if_neg (by omega), hparse]

/-- A block id shorter than 8 characters panics when sliced. -/
theorem processBlock_crash (posts : List Post) (b : Block)
    (hlen : b.blockNum.length < 8) :
    processBlock posts b = RunOutcome.crashed "runtime error: slice bounds out of range" := by
  unfold processBlock
  rw [if_pos hlen]

/-- The batch loop skips the sentinel block "0". -/
theorem runBatch_cons_sentinel (posts : List Post) (lp : Int) (tp bi : Nat)
    (b : Block) (rest : List Block) (hb0 : b.blockNum = "0") :
    runBatch posts lp tp bi (b :: rest) = runBatch posts lp tp bi rest := by
  simp only [runBatch, if_pos hb0]

/-- The batch loop logs and skips a block whose id fails to parse, without
advancing lastProcessed or the counters. -/
theorem runBatch_cons_error (posts : List Post) (lp : Int) (tp bi : Nat)
    (b : Block) (rest : List Block) (hb0 : b.blockNum ≠ "0")
    (hlen : 8 ≤ b.blockNum.length)
    (hparse : parseHexInt32 (b.blockNum.take 8) = none) :
    runBatch posts lp tp bi (b :: rest) = runBatch posts lp tp bi rest := by
  simp only [runBatch, if_neg hb0, processBlock_error posts b hlen hparse]

/-- The batch loop advances lastProcessed to a successfully processed block's
height and accumulates the counters. -/
theorem runBatch_cons_success (posts : List Post) (lp : Int) (tp bi : Nat)
    (b : Block) (rest : List Block) (hb0 : b.blockNum ≠ "0")
    (hlen : 8 ≤ b.blockNum.length) (h : Int)
    (hparse : parseHexInt32 (b.blockNum.take 8) = some h) :
    runBatch posts lp tp bi (b :: rest) =
      runBatch (processTxs h b.timestamp b.transactions (0, posts)).snd h (tp + 1)
        (bi + (processTxs h b.timestamp b.transactions (0, posts)).fst) rest := by
  simp only [runBatch, if_neg hb0, processBlock_success posts b h hlen hparse, hparse,
    Option.getD_some]

/-- A short-id block (other than the sentinel) aborts the whole batch with a
panic. -/
theorem runBatch_cons_crash (posts : List Post) (lp : Int) (tp bi : Nat)
    (b : Block) (rest : List Block) (hb0 : b.blockNum ≠ "0")
    (hlen : b.blockNum.length < 8) :
    runBatch posts lp tp bi (b :: rest) =
      RunOutcome.crashed "runtime error: slice bounds out of range" := by
  simp only [runBatch, if_neg hb0, processBlock_crash posts b hlen]

/-- The operation scan's count: the accumulator grows by exactly the number
of operations passing the comment_operation/top-level filter. -/
theorem processOps_count (blockNum : Int) (ts : String) :
    ∀ (ops : List Operation) (count : Nat) (posts : List Post),
      (processOps blockNum ts ops (count, posts)).fst = count + ops.countP qualifies := by
  intro ops
  induction ops with
  | nil => intro count posts; simp [processOps]
  | cons op rest ih =>
    intro count posts
    simp only [processOps]
    split_ifs with h1 h2
    · rw [ih]
      have hq : qualifies op = false := by
        simp [qualifies]
        intro h
        exact absurd h h1
      simp [List.countP_cons, hq]
    · rw [ih]
      have hq : qualifies op = false := by
        simp [qualifies, not_not.mp h1]
        exact h2
      simp [List.countP_cons, hq]
    · rw [ih]
      have hq : qualifies op = true := by
        simp [qualifies, not_not.mp h1, not_not.mp h2]
      simp [List.countP_cons, hq]
      omega

/-- An operation list with no operation passing the filter leaves the posts
table untouched. -/
theorem processOps_unchanged (blockNum : Int) (ts : String) :
    ∀ (ops : List Operation) (count : Nat) (posts : List Post),
      ops.countP qualifies = 0 →
      (processOps blockNum ts ops (count, posts)).snd = posts := by
  intro ops
  induction ops with
  | nil => intro count posts _; rfl
  | cons op rest ih =>
    intro count posts hzero
    rw [List.countP_cons] at hzero
    simp only [processOps]
    split_ifs with h1 h2
    · exact ih count posts (by omega)
    · exact ih count posts (by omega)
    · exfalso
      have hq : qualifies op = true := by
        simp [qualifies, not_not.mp h1, not_not.mp h2]
      simp [hq] at hzero

/-- The transaction scan's count: the accumulator grows by the total number
of filter-passing operations across the block's transactions. -/
theorem processTxs_count (blockNum : Int) (ts : String) :
    ∀ (txs : List Transaction) (acc : Nat × List Post),
      (processTxs blockNum ts txs acc).fst =
        acc.fst + (txs.map (fun tx => tx.operations.countP qualifies)).sum := by
  intro txs
  induction txs with
  | nil => intro acc; simp [processTxs]
  | cons tx rest ih =>
    intro acc
    obtain ⟨count, posts⟩ := acc
    simp only [processTxs, List.map_cons, List.sum_cons]
    rw [ih, processOps_count]
    omega

/-- A block with no filter-passing operation leaves the posts table
untouched. -/
theorem processTxs_unchanged (blockNum : Int) (ts : String) :
    ∀ (txs : List Transaction) (count : Nat) (posts : List Post),
      (txs.map (fun tx => tx.operations.countP qualifies)).sum = 0 →
      (processTxs blockNum ts txs (count, posts)).snd = posts := by
  intro txs
  induction txs with
  | nil => intro count posts _; rfl
  | cons tx rest ih =>
    intro count posts hzero
    simp only [List.map_cons, List.sum_cons] at hzero
    simp only [processTxs]
    have hops : tx.operations.countP qualifies = 0 := by omega
    have hrest : (rest.map (fun t => t.operations.countP qualifies)).sum = 0 := by omega
    rcases hPP : processOps blockNum ts tx.operations (count, posts) with ⟨c', p'⟩
    have hp' : p' = posts := by
      have hu := processOps_unchanged blockNum ts tx.operations count posts hops
      rw [hPP] at hu
      exact hu
    rw [hp']
    exact ih c' posts hrest

/-- C2 counterexample: a top-level operation whose kind is the literal
"comment" (as the claim states) produces no PostRecord — the code only
matches the kind string "comment_operation", so this block yields count 0 and
an unchanged table. -/
theorem c2_comment_kind_cex :
    processBlock []
      (Block.mk "0000001a" "2024-01-01T00:00:00"
        [Transaction.mk [Operation.mk "comment"
          (OperationValue.mk "alice" "Hello" "hello-world" "" "")]]) =
      RunOutcome.ok (0, none, []) := by
  rfl

/-- C2 amended: for every block whose first 8 id characters parse, extraction
builds a PostRecord candidate exactly for the operations whose kind is
exactly "comment_operation" and whose parent-author is empty: the returned
count equals the number of such operations, no error is produced, and a block
with no such operation (any other kinds, or replies) leaves the posts table
untouched and never causes failure. -/
theorem c2_operation_filter (posts : List Post) (b : Block) (h : Int)
    (hlen : 8 ≤ b.blockNum.length)
    (hparse : parseHexInt32 (b.blockNum.take 8) = some h) :
    processBlock posts b =
      RunOutcome.ok (qualCount b, none,
        (processTxs h b.timestamp b.transactions (0, posts)).snd) ∧
    (qualCount b = 0 →
      processBlock posts b = RunOutcome.ok (0, none, posts)) := by
  have hcount : (processTxs h b.timestamp b.transactions (0, posts)).fst = qualCount b := by
    rw [processTxs_count]
    simp [qualCount]
  constructor
  · rw [processBlock_success posts b h hlen hparse, hcount]
  · intro hzero
    rw [processBlock_success posts b h hlen hparse, hcount, hzero]
    rw [processTxs_unchanged h b.timestamp b.transactions 0 posts hzero]

/-- C2 amended, witnessed on a block holding one top-level
comment_operation, one reply comment_operation, and one vote_operation: the
count is 1; and on a block holding only the reply and the vote: count 0 and
an unchanged table. -/
theorem c2_operation_filter_witness :
    processBlock []
      (Block.mk "0000001a" "2024-01-01T00:00:00"
        [Transaction.mk [Operation.mk "comment_operation"
            (OperationValue.mk "alice" "Hello" "hello-world" "" ""),
          Operation.mk "comment_operation"
            (OperationValue.mk "bob" "Re" "re-hello" "alice" ""),
          Operation.mk "vote_operation"
            (OperationValue.mk "carol" "" "hello-world" "" "")]]) =
      RunOutcome.ok
        (qualCount
          (Block.mk "0000001a" "2024-01-01T00:00:00"
            [Transaction.mk [Operation.mk "comment_operation"
                (OperationValue.mk "alice" "Hello" "hello-world" "" ""),
              Operation.mk "comment_operation"
                (OperationValue.mk "bob" "Re" "re-hello" "alice" ""),
              Operation.mk "vote_operation"
                (OperationValue.mk "carol" "" "hello-world" "" "")]]), none,
          (processTxs 26 "2024-01-01T00:00:00"
            [Transaction.mk [Operation.mk "comment_operation"
                (OperationValue.mk "alice" "Hello" "hello-world" "" ""),
              Operation.mk "comment_operation"
                (OperationValue.mk "bob" "Re" "re-hello" "alice" ""),
              Operation.mk "vote_operation"
                (OperationValue.mk "carol" "" "hello-world" "" "")]] (0, [])).snd) ∧
    processBlock []
      (Block.mk "0000001a" "2024-01-01T00:00:00"
        [Transaction.mk [Operation.mk "comment_operation"
            (OperationValue.mk "bob" "Re" "re-hello" "alice" ""),
          Operation.mk "vote_operation"
            (OperationValue.mk "carol" "" "hello-world" "" "")]]) =
      RunOutcome.ok (0, none, []) :=
  ⟨(c2_operation_filter []
      (Block.mk "0000001a" "2024-01-01T00:00:00"
        [Transaction.mk [Operation.mk "comment_operation"
            (OperationValue.mk "alice" "Hello" "hello-world" "" ""),
          Operation.mk "comment_operation"
            (OperationValue.mk "bob" "Re" "re-hello" "alice" ""),
          Operation.mk "vote_operation"
            (OperationValue.mk "carol" "" "hello-world" "" "")]]) 26 (by decide) (by rfl)).1,
   (c2_operation_filter []
      (Block.mk "0000001a" "2024-01-01T00:00:00"
        [Transaction.mk [Operation.mk "comment_operation"
            (OperationValue.mk "bob" "Re" "re-hello" "alice" ""),
          Operation.mk "vote_operation"
            (OperationValue.mk "carol" "" "hello-world" "" "")]]) 26 (by decide) (by rfl)).2
     (by decide)⟩

/-- C4: tag normalization is total and follows the three-tier fallback:
empty metadata yields []; metadata the Tags-struct unmarshal rejects becomes
the single literal tag [s]; a decoded object whose tags is a string t yields
[t]; a decoded object whose tags is an array yields that array re-serialized
(the serializer is total on decoded values, so the code's
empty-array-on-marshal-failure fallback is unreachable); any other tags shape
(absent, null, number, boolean, object) yields []. -/
theorem c4_tag_normalization
    (s1 s2 s3 s4 s5 t : String) (xs : JsonList) (v : Json)
    (h1 : s1 ≠ "") (hp1 : goUnmarshalTagsStruct s1 = none)
    (h2 : s2 ≠ "") (hp2 : goUnmarshalTagsStruct s2 = some (some (Json.str t)))
    (h3 : s3 ≠ "") (hp3 : goUnmarshalTagsStruct s3 = some (some (Json.arr xs)))
    (h4 : s4 ≠ "") (hp4 : goUnmarshalTagsStruct s4 = some (some v))
    (hv1 : ∀ u : String, v ≠ Json.str u) (hv2 : ∀ ys : JsonList, v ≠ Json.arr ys)
    (h5 : s5 ≠ "") (hp5 : goUnmarshalTagsStruct s5 = some none) :
    normalizeTags "" = "[]" ∧
    normalizeTags s1 = "[" ++ goQuote s1 ++ "]" ∧
    normalizeTags s2 = "[" ++ goQuote t ++ "]" ∧
    normalizeTags s3 = goMarshal (Json.arr xs) ∧
    normalizeTags s4 = "[]" ∧
    normalizeTags s5 = "[]" := by
  refine ⟨rfl, ?_, ?_, ?_, ?_, ?_⟩
  · unfold normalizeTags
    rw [if_neg h1, hp1]
  · unfold normalizeTags
    rw [if_neg h2, hp2]
  · unfold normalizeTags
    rw [if_neg h3, hp3]
  · unfold normalizeTags
    rw [if_neg h4, hp4]
    cases v with
    | null => rfl
    | bool b => rfl
    | num n => rfl
    | str u => exact absurd rfl (hv1 u)
    | arr ys => exact absurd rfl (hv2 ys)
    | obj f => rfl
  · unfold normalizeTags
    rw [if_neg h5, hp5]

/-- C4 witnessed on the specification's five test vectors. -/
theorem c4_tag_normalization_witness :
    normalizeTags "" = "[]" ∧
    normalizeTags "not json" = "[\"not json\"]" ∧
    normalizeTags "\x7b\"tags\":\"foo\"\x7d" = "[\"foo\"]" ∧
    normalizeTags "\x7b\"tags\":[\"a\",\"b\"]\x7d" = "[\"a\",\"b\"]" ∧
    normalizeTags "\x7b\"tags\":42\x7d" = "[]" ∧
    normalizeTags "\x7b\"app\":\"leothreads\"\x7d" = "[]" :=
  c4_tag_normalization "not json" "\x7b\"tags\":\"foo\"\x7d" "\x7b\"tags\":[\"a\",\"b\"]\x7d"
    "\x7b\"tags\":42\x7d" "\x7b\"app\":\"leothreads\"\x7d" "foo"
    (JsonList.cons (Json.str "a") (JsonList.cons (Json.str "b") JsonList.nil)) (Json.num 42)
    (by decide) (by rfl) (by decide) (by rfl) (by decide) (by rfl) (by decide) (by rfl)
    (fun u h => nomatch h) (fun ys h => nomatch h) (by decide) (by rfl)

/-- On an operation failing at every index, the retry loop runs all remaining
attempts: it invokes the operation once per remaining attempt, requests a
delay of retryDelay * 2 ^ i after the failed attempt of index i (including
after the final one, where no further attempt follows), and returns the
wrapped error naming maxRetries attempts and the last underlying error. -/
theorem retryAux_all_fail (op : Nat → Option String) (n d : Nat)
    (hop : ∀ j, (op j).isSome = true) :
    ∀ (r i : Nat) (last : Option String),
      retryAux op n d i r last =
        (some (mkRetryExhaustedMsg n (if r = 0 then last else op (i + r - 1))), r,
          (List.range r).map fun k => d * 2 ^ (i + k)) := by
  intro r
  induction r with
  | zero => intro i last; rfl
  | succ r ih =>
    intro i last
    obtain ⟨e, he⟩ := Option.isSome_iff_exists.mp (hop i)
    unfold retryAux
    rw [he]
    simp only [ih (i + 1) (some e)]
    refine Prod.ext ?_ (Prod.ext rfl ?_)
    · simp only [Option.some.injEq]
      congr 1
      rw [if_neg (Nat.succ_ne_zero r)]
      cases r with
      | zero =>
        rw [if_pos rfl, show i + (0 + 1) - 1 = i from by omega]
        exact he.symm
      | succ r' =>
        rw [if_neg (Nat.succ_ne_zero r')]
        exact congrArg op (by omega)
    · simp only [List.range_succ_eq_map, List.map_cons, List.map_map]
      refine congrArg₂ _ (by rw [Nat.add_zero]) ?_
      apply List.map_congr_left
      intro a _
      simp only [Function.comp_apply]
      rw [show i + 1 + a = i + (a + 1) from by omega]

/-- On an operation first succeeding at index m (all earlier attempts
failing), the retry loop invokes the operation m + 1 times, requests the
delay d * 2 ^ j after each failed attempt j < m, and returns success with no
further invocation. -/
theorem retryAux_first_success (op : Nat → Option String) (n d : Nat) :
    ∀ (r m i : Nat) (last : Option String),
      m < r →
      op (i + m) = none →
      (∀ j, j < m → (op (i + j)).isSome = true) →
      retryAux op n d i r last =
        (none, m + 1, (List.range m).map fun k => d * 2 ^ (i + k)) := by
  intro r
  induction r with
  | zero => intro m i last hm; omega
  | succ r ih =>
    intro m i last hm hsucc hbefore
    cases m with
    | zero =>
      rw [Nat.add_zero] at hsucc
      unfold retryAux
      rw [hsucc]
      rfl
    | succ m' =>
      have hi : (op i).isSome = true := by
        have hb := hbefore 0 (Nat.succ_pos m')
        rwa [Nat.add_zero] at hb
      obtain ⟨e, he⟩ := Option.isSome_iff_exists.mp hi
      unfold retryAux
      rw [he]
      have hrec := ih m' (i + 1) (some e) (by omega)
        (by rw [show i + 1 + m' = i + (m' + 1) from by omega]; exact hsucc)
        (fun j hj => by
          have hb := hbefore (j + 1) (by omega)
          rwa [show i + (j + 1) = i + 1 + j from by omega] at hb)
      simp only [hrec]
      refine Prod.ext rfl (Prod.ext rfl ?_)
      simp only [List.range_succ_eq_map, List.map_cons, List.map_map]
      refine congrArg₂ _ (by rw [Nat.add_zero]) ?_
      apply List.map_congr_left
      intro a _
      simp only [Function.comp_apply]
      rw [show i + 1 + a = i + (a + 1) from by omega]

/-- C5: on an always-failing operation, retryWithBackoff invokes it exactly
maxRetries times, requests the delay retryDelay * 2 ^ i after the failed
attempt of index i (so the wait before attempt i + 1 is retryDelay * 2 ^ i;
the code also sleeps once more after the final failed attempt, a wait that
precedes no further attempt), and returns the error wrapping the last
underlying error and reporting the attempt count; on an operation first
succeeding at attempt index k, it returns success immediately after k + 1
invocations with only the delays of the k failed attempts. -/
theorem c5_retry_backoff (n d k : Nat) (op opS : Nat → Option String)
    (hn : 1 ≤ n) (hfail : ∀ j, (op j).isSome = true)
    (hk : k < n) (hbefore : ∀ j, j < k → (opS j).isSome = true) (hsucc : opS k = none) :
    retryWithBackoff n d op =
      (some (mkRetryExhaustedMsg n (op (n - 1))), n, (List.range n).map fun i => d * 2 ^ i) ∧
    retryWithBackoff n d opS = (none, k + 1, (List.range k).map fun i => d * 2 ^ i) := by
  have hzero : ∀ m : Nat, ((List.range m).map fun j => d * 2 ^ (0 + j)) =
      (List.range m).map fun i => d * 2 ^ i := by
    intro m
    apply List.map_congr_left
    intro a _
    rw [Nat.zero_add]
  constructor
  · unfold retryWithBackoff
    rw [retryAux_all_fail op n d hfail n 0 none]
    rw [if_neg (by omega), show 0 + n - 1 = n - 1 from by omega, hzero n]
  · unfold retryWithBackoff
    rw [retryAux_first_success opS n d n k 0 none hk (by rwa [Nat.zero_add])
      (fun j hj => by rw [Nat.zero_add]; exact hbefore j hj), hzero k]

/-- C5 witnessed with maxRetries = 3, delay unit 1: the always-failing
operation is invoked 3 times with requested delays 1, 2, 4 (the waits before
retries are 1 and 2; the trailing 4 follows the final attempt) and yields the
wrapped "3 attempts" error; an operation succeeding at index 1 stops after 2
invocations with the single delay 1. -/
theorem c5_retry_backoff_witness :
    retryWithBackoff 3 1 (fun _ => some "boom") =
      (some (mkRetryExhaustedMsg 3 ((fun _ => some "boom") (3 - 1))), 3,
        (List.range 3).map fun i => 1 * 2 ^ i) ∧
    retryWithBackoff 3 1 (fun i => if i < 1 then some "x" else none) =
      (none, 1 + 1, (List.range 1).map fun i => 1 * 2 ^ i) :=
  c5_retry_backoff 3 1 1 (fun _ => some "boom") (fun i => if i < 1 then some "x" else none)
    (by decide) (fun _ => rfl) (by decide) (fun j hj => by simp [hj]) (by rfl)

/-- When every filter-passing operation's key already exists in the posts
table, the operation scan leaves the table unchanged while still counting
each operation: the conflicting insert is executed without error, inserts
nothing, and processedCount is incremented regardless. -/
theorem processOps_conflict (blockNum : Int) (ts : String) :
    ∀ (ops : List Operation) (count : Nat) (posts : List Post),
      (∀ op ∈ ops, qualifies op = true →
        posts.any (fun q => q.url == constructAuthorPerm op.value.author op.value.permlink) = true) →
      processOps blockNum ts ops (count, posts) = (count + ops.countP qualifies, posts) := by
  intro ops
  induction ops with
  | nil => intro count posts _; simp [processOps]
  | cons op rest ih =>
    intro count posts hall
    simp only [processOps]
    split_ifs with hA hB
    · rw [ih count posts (fun o ho hq => hall o (List.mem_cons_of_mem _ ho) hq)]
      have hq : qualifies op = false := by
        simp [qualifies]
        intro h
        exact absurd h hA
      simp [List.countP_cons, hq]
    · rw [ih count posts (fun o ho hq => hall o (List.mem_cons_of_mem _ ho) hq)]
      have hq : qualifies op = false := by
        simp [qualifies, not_not.mp hA]
        exact hB
      simp [List.countP_cons, hq]
    · have hq : qualifies op = true := by
        simp [qualifies, not_not.mp hA, not_not.mp hB]
      have hmem := hall op (List.mem_cons_self op rest) hq
      have hins : insertPost posts
          { url := constructAuthorPerm op.value.author op.value.permlink
            author := op.value.author
            permlink := op.value.permlink
            title := op.value.title
            tags := normalizeTags op.value.jsonMetadata
            blockNum := blockNum
            timestamp := ts } = (posts, false) := by
        simp only [insertPost]
        rw [if_pos hmem]
      rw [hins]
      rw [ih (count + 1) posts (fun o ho hq => hall o (List.mem_cons_of_mem _ ho) hq)]
      simp [List.countP_cons, hq]
      omega

/-- Block-level version of processOps_conflict across all transactions. -/
theorem processTxs_conflict (blockNum : Int) (ts : String) :
    ∀ (txs : List Transaction) (count : Nat) (posts : List Post),
      (∀ tx ∈ txs, ∀ op ∈ tx.operations, qualifies op = true →
        posts.any (fun q => q.url == constructAuthorPerm op.value.author op.value.permlink) = true) →
      processTxs blockNum ts txs (count, posts) =
        (count + (txs.map (fun tx => tx.operations.countP qualifies)).sum, posts) := by
  intro txs
  induction txs with
  | nil => intro count posts _; simp [processTxs]
  | cons tx rest ih =>
    intro count posts hall
    simp only [processTxs, List.map_cons, List.sum_cons]
    rw [processOps_conflict blockNum ts tx.operations count posts
      (fun o ho hq => hall tx (List.mem_cons_self tx rest) o ho hq)]
    rw [ih _ posts (fun t ht o ho hq => hall t (List.mem_cons_of_mem _ ht) o ho hq)]
    refine Prod.ext ?_ rfl
    simp
    omega

/-- C6 counterexample: re-inserting an existing key is indeed not an error
and adds no row, but the claim's "contributes zero to the cumulative
posts-inserted count" is false — re-processing a block whose single top-level
post already exists returns count 1 (processedCount counts every executed
insert, conflicts included), not 0, while the table stays unchanged. -/
theorem c6_conflict_counted_cex :
    processBlock [Post.mk "@alice/hello-world" "alice" "hello-world" "Old" "[]" 20 "t0"]
      (Block.mk "0000001a" "2024-01-01T00:00:00"
        [Transaction.mk [Operation.mk "comment_operation"
          (OperationValue.mk "alice" "Hello again" "hello-world" "" "")]]) =
      RunOutcome.ok (1, none,
        [Post.mk "@alice/hello-world" "alice" "hello-world" "Old" "[]" 20 "t0"]) := by
  rfl

/-- C6 amended: a conflicting insert is not an error and inserts nothing
(success with zero inserts), and re-running a block over already-present keys
leaves the table unchanged and still advances lastProcessed and the
processed-block counter — but the reported posts count advances by the number
of executed (conflicting) inserts, not by zero: processedCount counts
executions, not newly inserted rows. -/
theorem c6_rerun_idempotent (posts : List Post) (p : Post) (b : Block) (h lp : Int)
    (tp bi : Nat)
    (hp : posts.any (fun q => q.url == p.url) = true)
    (hlen : 8 ≤ b.blockNum.length)
    (hparse : parseHexInt32 (b.blockNum.take 8) = some h)
    (hall : ∀ tx ∈ b.transactions, ∀ op ∈ tx.operations, qualifies op = true →
      posts.any (fun q => q.url == constructAuthorPerm op.value.author op.value.permlink) = true) :
    insertPost posts p = (posts, false) ∧
    processBlock posts b = RunOutcome.ok (qualCount b, none, posts) ∧
    runBatch posts lp tp bi [b] = RunOutcome.ok (posts, h, tp + 1, bi + qualCount b) := by
  have hb0 : b.blockNum ≠ "0" := by
    intro he
    rw [he] at hlen
    exact absurd hlen (by decide)
  have htxs : processTxs h b.timestamp b.transactions (0, posts) = (qualCount b, posts) := by
    rw [processTxs_conflict h b.timestamp b.transactions 0 posts hall]
    simp [qualCount]
  have hpb : processBlock posts b = RunOutcome.ok (qualCount b, none, posts) := by
    rw [processBlock_success posts b h hlen hparse, htxs]
  refine ⟨?_, hpb, ?_⟩
  · simp only [insertPost]
    rw [if_pos hp]
  · rw [runBatch_cons_success posts lp tp bi b [] hb0 hlen h hparse, htxs]
    rfl

/-- C6 amended, witnessed by re-running a block whose one top-level post
already sits in the table: no error, no new row, block counter and
lastProcessed advance, and the posts count grows by 1 (not 0). -/
theorem c6_rerun_idempotent_witness :
    insertPost [Post.mk "@alice/hello-world" "alice" "hello-world" "Old" "[]" 20 "t0"]
      (Post.mk "@alice/hello-world" "alice" "hello-world" "New" "[]" 26 "t1") =
      ([Post.mk "@alice/hello-world" "alice" "hello-world" "Old" "[]" 20 "t0"], false) ∧
    processBlock [Post.mk "@alice/hello-world" "alice" "hello-world" "Old" "[]" 20 "t0"]
      (Block.mk "0000001a" "2024-01-01T00:00:00"
        [Transaction.mk [Operation.mk "comment_operation"
          (OperationValue.mk "alice" "Hello again" "hello-world" "" "")]]) =
      RunOutcome.ok
        (qualCount (Block.mk "0000001a" "2024-01-01T00:00:00"
          [Transaction.mk [Operation.mk "comment_operation"
            (OperationValue.mk "alice" "Hello again" "hello-world" "" "")]]), none,
          [Post.mk "@alice/hello-world" "alice" "hello-world" "Old" "[]" 20 "t0"]) ∧
    runBatch [Post.mk "@alice/hello-world" "alice" "hello-world" "Old" "[]" 20 "t0"] 9 4 7
      [Block.mk "0000001a" "2024-01-01T00:00:00"
        [Transaction.mk [Operation.mk "comment_operation"
          (OperationValue.mk "alice" "Hello again" "hello-world" "" "")]]] =
      RunOutcome.ok
        ([Post.mk "@alice/hello-world" "alice" "hello-world" "Old" "[]" 20 "t0"], 26, 4 + 1,
          7 + qualCount (Block.mk "0000001a" "2024-01-01T00:00:00"
            [Transaction.mk [Operation.mk "comment_operation"
              (OperationValue.mk "alice" "Hello again" "hello-world" "" "")]])) :=
  c6_rerun_idempotent
    [Post.mk "@alice/hello-world" "alice" "hello-world" "Old" "[]" 20 "t0"]
    (Post.mk "@alice/hello-world" "alice" "hello-world" "New" "[]" 26 "t1")
    (Block.mk "0000001a" "2024-01-01T00:00:00"
      [Transaction.mk [Operation.mk "comment_operation"
        (OperationValue.mk "alice" "Hello again" "hello-world" "" "")]])
    26 9 4 7 (by decide) (by decide) (by rfl) (by decide)

/-- In a batch whose last block parses at height h (and is not the
sentinel), a successful batch run leaves lastProcessed at h, whatever
happened to the earlier blocks. -/
theorem runBatch_last_lp (b : Block) (h : Int)
    (hb0 : b.blockNum ≠ "0") (hlen : 8 ≤ b.blockNum.length)
    (hparse : parseHexInt32 (b.blockNum.take 8) = some h) :
    ∀ (pre : List Block) (posts : List Post) (lp : Int) (tp bi : Nat)
      (res : List Post × Int × Nat × Nat),
      runBatch posts lp tp bi (pre ++ [b]) = RunOutcome.ok res → res.2.1 = h := by
  intro pre
  induction pre with
  | nil =>
    intro posts lp tp bi res hrun
    rw [List.nil_append, runBatch_cons_success posts lp tp bi b [] hb0 hlen h hparse] at hrun
    simp only [runBatch] at hrun
    rw [RunOutcome.ok.injEq] at hrun
    rw [← hrun]
  | cons b0 rest ih =>
    intro posts lp tp bi res hrun
    rw [List.cons_append] at hrun
    by_cases hb00 : b0.blockNum = "0"
    · rw [runBatch_cons_sentinel posts lp tp bi b0 _ hb00] at hrun
      exact ih posts lp tp bi res hrun
    · by_cases hlen0 : b0.blockNum.length < 8
      · rw [runBatch_cons_crash posts lp tp bi b0 _ hb00 hlen0] at hrun
        simp at hrun
      · cases hparse0 : parseHexInt32 (b0.blockNum.take 8) with
        | none =>
          rw [runBatch_cons_error posts lp tp bi b0 _ hb00 (by omega) hparse0] at hrun
          exact ih posts lp tp bi res hrun
        | some h0 =>
          rw [runBatch_cons_success posts lp tp bi b0 _ hb00 (by omega) h0 hparse0] at hrun
          exact ih _ _ _ _ res hrun

/-- A successful batch run never moves lastProcessed below a bound X that
sits below the incoming lastProcessed and below every parsed block height in
the batch. -/
theorem runBatch_lp_lower (X : Int) :
    ∀ (blocks : List Block) (posts : List Post) (lp : Int) (tp bi : Nat)
      (res : List Post × Int × Nat × Nat),
      runBatch posts lp tp bi blocks = RunOutcome.ok res →
      X ≤ lp →
      (∀ b ∈ blocks, ∀ hb : Int, parseHexInt32 (b.blockNum.take 8) = some hb → X ≤ hb) →
      X ≤ res.2.1 := by
  intro blocks
  induction blocks with
  | nil =>
    intro posts lp tp bi res hrun hX _
    simp only [runBatch] at hrun
    rw [RunOutcome.ok.injEq] at hrun
    rw [← hrun]
    exact hX
  | cons b rest ih =>
    intro posts lp tp bi res hrun hX hall
    by_cases hb0 : b.blockNum = "0"
    · rw [runBatch_cons_sentinel posts lp tp bi b rest hb0] at hrun
      exact ih posts lp tp bi res hrun hX (fun b' hb' => hall b' (List.mem_cons_of_mem _ hb'))
    · by_cases hlen : b.blockNum.length < 8
      · rw [runBatch_cons_crash posts lp tp bi b rest hb0 hlen] at hrun
        simp at hrun
      · cases hparse : parseHexInt32 (b.blockNum.take 8) with
        | none =>
          rw [runBatch_cons_error posts lp tp bi b rest hb0 (by omega) hparse] at hrun
          exact ih posts lp tp bi res hrun hX (fun b' hb' => hall b' (List.mem_cons_of_mem _ hb'))
        | some hb =>
          rw [runBatch_cons_success posts lp tp bi b rest hb0 (by omega) hb hparse] at hrun
          exact ih _ _ _ _ res hrun (hall b (List.mem_cons_self b rest) hb hparse)
            (fun b' hb' => hall b' (List.mem_cons_of_mem _ hb'))

/-- When the fetch oracle only returns blocks whose parsed heights are at
least the requested start height, every batch request the loop issues from a
lastProcessed of at least X starts strictly above X. -/
theorem runLoop_start_lower (fetch : Int → Int → List Block) (currentBlock batchSize X : Int)
    (hfetch : ∀ start count : Int, ∀ b ∈ fetch start count, ∀ hb : Int,
      parseHexInt32 (b.blockNum.take 8) = some hb → start ≤ hb) :
    ∀ (fuel : Nat) (posts : List Post) (lp : Int),
      X ≤ lp →
      ∀ pr ∈ runLoop fetch currentBlock batchSize fuel posts lp, X + 1 ≤ pr.fst := by
  intro fuel
  induction fuel with
  | zero =>
    intro posts lp hX pr hpr
    simp [runLoop] at hpr
  | succ fuel ih =>
    intro posts lp hX pr hpr
    simp only [runLoop] at hpr
    by_cases hvar : currentBlock - lp > 0
    · rw [if_pos hvar] at hpr
      cases hrb : runBatch posts lp 0 0
          (fetch (batchParams lp batchSize currentBlock).fst
            (batchParams lp batchSize currentBlock).snd) with
      | crashed msg =>
        rw [hrb] at hpr
        have hpr' : pr = batchParams lp batchSize currentBlock := by
          simpa using hpr
        rw [hpr']
        have : (batchParams lp batchSize currentBlock).fst = lp + 1 := rfl
        omega
      | ok r =>
        rw [hrb] at hpr
        rcases List.mem_cons.mp hpr with hhead | htail
        · rw [hhead]
          have : (batchParams lp batchSize currentBlock).fst = lp + 1 := rfl
          omega
        · refine ih r.1 r.2.1 ?_ pr htail
          refine runBatch_lp_lower X
            (fetch (batchParams lp batchSize currentBlock).fst
              (batchParams lp batchSize currentBlock).snd)
            posts lp 0 0 (r.1, r.2.1, r.2.2.1, r.2.2.2) ?_ hX ?_
          · rw [hrb]
          · intro b hbmem hb hbparse
            have hge := hfetch (batchParams lp batchSize currentBlock).fst
              (batchParams lp batchSize currentBlock).snd b hbmem hb hbparse
            have hstart : (batchParams lp batchSize currentBlock).fst = lp + 1 := rfl
            omega
    · rw [if_neg hvar] at hpr
      simp at hpr

/-- C10: if a fetched block fails (and is skipped without advancing
lastProcessed) while the last block of the same batch is processed
successfully at height hs, then lastProcessed ends the batch at hs; provided
the failed block's chain height hf is at most hs and the chain source only
returns blocks at or above the requested start, every subsequent batch fetch
of the run starts strictly above hf, so the failed height lies in no later
requested range and no later fetched block parses at a height of at most
hf. -/
theorem c10_failed_block_not_refetched
    (fetch : Int → Int → List Block) (currentBlock batchSize : Int) (fuel : Nat)
    (posts0 posts1 : List Post) (lp0 lp1 : Int) (tp bi : Nat)
    (pre mid : List Block) (bf bs : Block) (hf hs : Int)
    (hbflen : 8 ≤ bf.blockNum.length)
    (hbffail : parseHexInt32 (bf.blockNum.take 8) = none)
    (hbs0 : bs.blockNum ≠ "0")
    (hbslen : 8 ≤ bs.blockNum.length)
    (hbsparse : parseHexInt32 (bs.blockNum.take 8) = some hs)
    (hrun : runBatch posts0 lp0 0 0 (pre ++ (bf :: (mid ++ [bs]))) =
      RunOutcome.ok (posts1, lp1, tp, bi))
    (hle : hf ≤ hs)
    (hfetch : ∀ start count : Int, ∀ b ∈ fetch start count, ∀ hb : Int,
      parseHexInt32 (b.blockNum.take 8) = some hb → start ≤ hb) :
    lp1 = hs ∧
    ∀ pr ∈ runLoop fetch currentBlock batchSize fuel posts1 lp1,
      hf < pr.fst ∧ ¬(pr.fst ≤ hf ∧ hf < pr.fst + pr.snd) ∧
      ∀ b ∈ fetch pr.fst pr.snd, ∀ hb : Int,
        parseHexInt32 (b.blockNum.take 8) = some hb → hf < hb := by
  have hassoc : pre ++ (bf :: (mid ++ [bs])) = (pre ++ (bf :: mid)) ++ [bs] := by
    rw [List.append_assoc, List.cons_append]
  rw [hassoc] at hrun
  have hlp1 : lp1 = hs :=
    runBatch_last_lp bs hs hbs0 hbslen hbsparse (pre ++ (bf :: mid)) posts0 lp0 0 0
      (posts1, lp1, tp, bi) hrun
  refine ⟨hlp1, ?_⟩
  intro pr hpr
  have hstart : hf + 1 ≤ pr.fst := by
    refine runLoop_start_lower fetch currentBlock batchSize hf hfetch fuel posts1 lp1 ?_ pr hpr
    omega
  refine ⟨by omega, by omega, ?_⟩
  intro b hbmem hb hbparse
  have := hfetch pr.fst pr.snd b hbmem hb hbparse
  omega

/-- C10 witnessed: a batch holding a bad-hex block (chain height 20) followed
by a successful block at height 26 ends with lastProcessed 26, and with an
empty chain source every later request of the run starts above 20. -/
theorem c10_failed_block_not_refetched_witness :
    (26 : Int) = 26 ∧
    ∀ pr ∈ runLoop (fun _ _ => ([] : List Block)) 30 10 2 ([] : List Post) 26,
      (20 : Int) < pr.fst ∧ ¬(pr.fst ≤ 20 ∧ 20 < pr.fst + pr.snd) ∧
      ∀ b ∈ (fun (_ _ : Int) => ([] : List Block)) pr.fst pr.snd, ∀ hb : Int,
        parseHexInt32 (b.blockNum.take 8) = some hb → 20 < hb :=
  c10_failed_block_not_refetched (fun _ _ => []) 30 10 2 [] [] 0 26 1 0 [] []
    (Block.mk "zzzzzzzz" "t" []) (Block.mk "0000001a" "t" []) 20 26
    (by decide) (by rfl) (by decide) (by decide) (by rfl) (by rfl) (by decide)
    (fun start count b hbmem => absurd hbmem (List.not_mem_nil b))

/-- C1: the claim asserts that the schema created by initDB carries a tags
column and that preparing NewBlockProcessor's insert statement against it
succeeds.  In the code initDB names the column json_metadata while the
prepared INSERT targets a tags column, so the statement does not compile
against the created schema: preparing it fails on every fresh start and the
processor is never constructed. -/
theorem c1_schema_insert_mismatch :
    prepareInsertOk = false ∧
    insertColumns.contains "tags" = true ∧
    postsTableColumns.contains "tags" = false ∧
    postsTableColumns.contains "json_metadata" = true := by
  decide

/-- C3 counterexample: a block whose identifier "abc" is shorter than 8
characters makes processBlock panic on block.BlockNum[:8] — the program
crashes instead of returning an error with record count 0 as the claim
states. -/
theorem c3_short_id_crash_cex :
    processBlock [] (Block.mk "abc" "2024-01-01T00:00:00" []) =
      RunOutcome.crashed "runtime error: slice bounds out of range" := by
  rfl

/-- C3 amended: for an identifier of length at least 8 whose first 8
characters do not parse as hexadecimal, processBlock returns an error with a
record count of 0, aborting extraction for that block only; an identifier
shorter than 8 characters instead panics (crashes) when sliced, rather than
returning an error. -/
theorem c3_malformed_id (posts : List Post) (b bshort : Block)
    (hlen : 8 ≤ b.blockNum.length)
    (hbad : parseHexInt32 (b.blockNum.take 8) = none)
    (hshort : bshort.blockNum.length < 8) :
    processBlock posts b =
      RunOutcome.ok (0, some "error converting block number from hex", posts) ∧
    processBlock posts bshort =
      RunOutcome.crashed "runtime error: slice bounds out of range" := by
  constructor
  · unfold processBlock
    rw [if_neg (by omega), hbad]
  · unfold processBlock
    rw [if_pos hshort]

/-- C3 amended, witnessed at the ids "zzzzzzzz" (hex parse failure) and
"abc" (short id). -/
theorem c3_malformed_id_witness :
    processBlock [] (Block.mk "zzzzzzzz" "2024-01-01T00:00:00" []) =
      RunOutcome.ok (0, some "error converting block number from hex", []) ∧
    processBlock [] (Block.mk "abc" "2024-01-01T00:00:00" []) =
      RunOutcome.crashed "runtime error: slice bounds out of range" :=
  c3_malformed_id [] (Block.mk "zzzzzzzz" "2024-01-01T00:00:00" [])
    (Block.mk "abc" "2024-01-01T00:00:00" []) (by decide) (by rfl) (by decide)

/-- C7: with an empty store (MAX(block_num) is NULL) the resume height is the
configured genesis height — nonzero whenever the genesis height is positive —
and the first batch fetch starts at genesis + 1; with a stored maximum H > 0
the resume height is H and the first fetch starts at H + 1. -/
theorem c7_resume_height (genesis height : Int) (hg : 0 < genesis) (hh : 0 < height) :
    bootstrapLastProcessed none genesis = genesis ∧
    bootstrapLastProcessed none genesis ≠ 0 ∧
    firstStartBlock none genesis = genesis + 1 ∧
    bootstrapLastProcessed (some height) genesis = height ∧
    firstStartBlock (some height) genesis = height + 1 := by
  have h1 : bootstrapLastProcessed none genesis = genesis := by
    simp [bootstrapLastProcessed, getLastProcessedBlock]
  have h2 : bootstrapLastProcessed (some height) genesis = height := by
    simp [bootstrapLastProcessed, getLastProcessedBlock, hh.ne']
  refine ⟨h1, by omega, ?_, h2, ?_⟩
  · unfold firstStartBlock
    rw [h1]
  · unfold firstStartBlock
    rw [h2]

/-- C7 witnessed at the configured genesis height 41818753 and a stored
maximum height of 46000000. -/
theorem c7_resume_height_witness :
    bootstrapLastProcessed none 41818753 = 41818753 ∧
    bootstrapLastProcessed none 41818753 ≠ 0 ∧
    firstStartBlock none 41818753 = 41818753 + 1 ∧
    bootstrapLastProcessed (some 46000000) 41818753 = 46000000 ∧
    firstStartBlock (some 46000000) 41818753 = 46000000 + 1 :=
  c7_resume_height 41818753 46000000 (by decide) (by decide)

/-- C8: every batch iteration requests startHeight = lastProcessed + 1 and a
count of min(batchSize, targetHeight - startHeight + 1); the code's
conditional clipping computes exactly this minimum. -/
theorem c8_batch_boundaries (lastProcessed batchSize currentBlock : Int)
    (hb : 1 ≤ batchSize) (hlt : lastProcessed < currentBlock) :
    batchParams lastProcessed batchSize currentBlock =
      (lastProcessed + 1, min batchSize (currentBlock - (lastProcessed + 1) + 1)) := by
  unfold batchParams
  refine Prod.ext rfl ?_
  simp only []
  split <;> omega

/-- C8 witnessed at lastProcessed = 100, batchSize = 1000, target = 105 (the
clipped case; 1000 blocks would overshoot, so 5 are requested). -/
theorem c8_batch_boundaries_witness :
    batchParams 100 1000 105 = (100 + 1, min 1000 (105 - (100 + 1) + 1)) :=
  c8_batch_boundaries 100 1000 105 (by decide) (by decide)

/-- C9 counterexample: at targetHeight = genesisHeight the claim requires the
percentage to be defined as 100; the code has no such guard — the float64
denominator is zero and the division yields a non-finite value (modelled as
none), not 100. -/
theorem c9_percent_no_guard_cex :
    percentComplete 41818753 41818753 41818753 = none := by
  rfl

/-- C9 amended: the computation has no division-by-zero guard, so the case
targetHeight = genesisHeight yields a non-finite value rather than 100; for
targetHeight > genesisHeight the percentage equals
(lastProcessed - genesis) / (target - genesis) * 100 exactly, is monotonically
non-decreasing in lastProcessed, and equals 100 when lastProcessed equals the
target height. -/
theorem c9_percent_formula (lp lp' currentBlock genesis : Int)
    (hgt : genesis < currentBlock) (hmono : lp ≤ lp') :
    percentComplete lp currentBlock genesis =
      some (((lp - genesis : Int) : ℚ) / ((currentBlock - genesis : Int) : ℚ) * 100) ∧
    (∀ q q' : ℚ, percentComplete lp currentBlock genesis = some q →
      percentComplete lp' currentBlock genesis = some q' → q ≤ q') ∧
    percentComplete currentBlock currentBlock genesis = some 100 := by
  have hden : currentBlock - genesis ≠ 0 := by omega
  have hpos : (0 : ℚ) < ((currentBlock - genesis : Int) : ℚ) := by
    exact_mod_cast (by omega : (0 : Int) < currentBlock - genesis)
  have heq : ∀ x : Int, percentComplete x currentBlock genesis =
      some (((x - genesis : Int) : ℚ) / ((currentBlock - genesis : Int) : ℚ) * 100) := by
    intro x
    unfold percentComplete
    rw [if_neg hden]
  refine ⟨heq lp, ?_, ?_⟩
  · intro q q' hq hq'
    rw [heq lp] at hq
    rw [heq lp'] at hq'
    rw [Option.some.injEq] at hq hq'
    rw [← hq, ← hq']
    have hc : ((lp - genesis : Int) : ℚ) ≤ ((lp' - genesis : Int) : ℚ) := by
      exact_mod_cast (by omega : lp - genesis ≤ lp' - genesis)
    exact mul_le_mul_of_nonneg_right ((div_le_div_iff_of_pos_right hpos).mpr hc) (by norm_num)
  · rw [heq currentBlock, div_self (ne_of_gt hpos), one_mul]

/-- C9 amended, witnessed at lastProcessed 150 then 160, target 200, genesis
100 (50 percent, monotone, 100 percent at the target). -/
theorem c9_percent_formula_witness :
    percentComplete 150 200 100 =
      some (((150 - 100 : Int) : ℚ) / ((200 - 100 : Int) : ℚ) * 100) ∧
    (∀ q q' : ℚ, percentComplete 150 200 100 = some q →
      percentComplete 160 200 100 = some q' → q ≤ q') ∧
    percentComplete 200 200 100 = some 100 :=
  c9_percent_formula 150 160 200 100 (by decide) (by decide)

end PostStuffer
